import Mathlib

/-!
Verification of the duplicate-question clustering core of the `doubles`
repository (`doubles/question_store.py`, `doubles/progress.py`).

The Python code is shallowly embedded:

* `Q` mirrors the `Question` object (`question_store.py`, lines 34-85);
  the external language detector is an oracle, so `mkQuestion` takes the
  detector verdict `foreign` as an argument, and the spaCy stop-word set
  is passed in as the list `stop_words`.
* `St` mirrors the mutable fields of `Question_Store` that
  `process`/`export` touch, plus `warnings`, which counts the
  `log.warning` calls issued inside `process` (the only observable
  effect of the answer-inconsistency check, lines 204-205).
* The similarity oracle `get_similarity` returns a Python float; it is
  modelled as an arbitrary function into `Rat`.
* `process` (lines 128-208) is embedded as a pure state transformer
  (`process`), and additionally as `processP`, which threads the
  progress-bar calls through `Except` so that the dynamic `TypeError`
  raised by a call that misses a required positional argument is
  observable.  `CLI_PROGRESS.show_progress` (progress.py, line 35)
  requires two positional arguments `(prog, ref)`; the call sites in
  `process` (lines 162, 173, 177) supply only one, which `show_progress`
  here reports as an error.  The percentage value `int(idx * pps)` is
  modelled with exact rational arithmetic and floor.
* `export` (lines 245-314) writes three sheets; the row lists of the
  three sheets are embedded as `exportUnique`, `exportDuplicates` and
  `exportForeign`.
-/

/-- Status codes live in `settings.yaml` (not part of the sources); the code
only ever assigns `ST_NOQ` (lines 111 and 147).  A second constructor stands
for every other configured status value. -/
inductive Status where
  | ST_NOQ : Status
  | ST_OTHER : Status
deriving DecidableEq, Repr

/-- One `Question` object (`question_store.py`, lines 34-85).  `duplicates`
keeps the `lid`s of the questions appended at line 194. -/
structure Q where
  lid : Int
  original_question : String
  foreign : Bool
  neg_sentiment : Bool
  question : String
  answer : Bool
  reference : Bool
  unique : Bool
  duplicate : Bool
  duplicates : List Int
  duplicate_of : Int
deriving DecidableEq, Repr

/-- Python `str.lower()` (ASCII part, which is all the claims exercise). -/
def pyLower (s : String) : String := String.mk (s.data.map Char.toLower)

/-- Split a character list at every character satisfying `p`, keeping the
(possibly empty) segments between separators. -/
def splitChars (p : Char → Bool) : List Char → List (List Char)
  | [] => [[]]
  | c :: cs =>
    match splitChars p cs with
    | [] => [[]]
    | seg :: rest => if p c then [] :: seg :: rest else (c :: seg) :: rest

/-- Python `str.split()` with no argument: split on whitespace runs and
drop empty pieces. -/
def pySplit (s : String) : List String :=
  ((splitChars (fun c => c.isWhitespace) s.data).map String.mk).filter (fun t => t ≠ "")

/-- Python `str.strip(chars)`: remove leading and trailing characters that
occur in `cut`. -/
def pyStrip (cut : List Char) (s : String) : String :=
  String.mk (((s.data.dropWhile (fun c => cut.contains c)).reverse.dropWhile
    (fun c => cut.contains c)).reverse)

/-- The characters stripped at line 67: `token.strip('?,.!')`. -/
def punct : List Char := ['?', ',', '.', '!']

/-- `Question.__init__` (lines 39-85).  `foreign` is the verdict of the
external language-detector oracle (lines 57-60); `stop_words` is the
spaCy `STOP_WORDS` constant (line 69). -/
def mkQuestion (stop_words : List String) (lid : Int) (question_text : String)
    (answer : Bool) (foreign : Bool) : Q :=
  let toks0 := pySplit (pyLower question_text)
  let neg := decide ("not" ∈ toks0)
  let toks1 := toks0.map (pyStrip punct)
  let toks2 := toks1.filter (fun t => !(stop_words.contains t))
  { lid := lid
    original_question := question_text
    foreign := foreign
    neg_sentiment := neg
    question := String.intercalate " " toks2
    answer := answer
    reference := false
    unique := true
    duplicate := false
    duplicates := []
    duplicate_of := 0 }

/-- The `Question_Store` state touched by `process` and `export`:
the list of questions and the counters.  `warnings` counts the
`log.warning` calls made inside `process` (line 205). -/
structure St where
  store : List Q
  num_q : Nat
  num_duplicates : Nat
  num_negatives : Nat
  num_foreign : Nat
  status : Status
  warnings : Nat
deriving DecidableEq, Repr

/-- Replace the element at one position of the store, as Python attribute
assignment on `self.store[idx]` does. -/
def modifyIdx (f : Q → Q) : Nat → List Q → List Q
  | _, [] => []
  | 0, q :: qs => f q :: qs
  | n + 1, q :: qs => q :: modifyIdx f n qs

/-- Lines 192-196 applied to the matched candidate `q2`:
`q2.unique = False`, `q2.duplicate = True`, `q2.duplicate_of = q.lid`. -/
def markDup (anchorLid : Int) (q : Q) : Q :=
  { q with unique := false, duplicate := true, duplicate_of := anchorLid }

/-- Line 194 applied to the anchor: `q.duplicates.append(q2)` (the lid is
recorded). -/
def addDuplicate (dupLid : Int) (q : Q) : Q :=
  { q with duplicates := q.duplicates ++ [dupLid] }

/-- Line 179 applied to the anchor: `q.reference = True`. -/
def setReference (q : Q) : Q :=
  { q with reference := true }

/-- One iteration of the inner scan (lines 183-208) for anchor position `i`
and candidate position `j`: skip an already-duplicate candidate, otherwise
compare and, on `similarity > SS_MATCH`, mark the duplicate, append it to
the anchor, bump the counters, and log the inconsistency warning when the
candidate has a negation cue but the answers agree (lines 204-205). -/
def innerStep (sim : String → String → Rat) (thr : Rat) (i j : Nat) (st : St) : St :=
  match st.store[i]?, st.store[j]? with
  | some q, some q2 =>
    if q2.duplicate then st
    else if thr < sim q.question q2.question then
      { st with
        store := modifyIdx (addDuplicate q2.lid) i (modifyIdx (markDup q.lid) j st.store)
        num_duplicates := st.num_duplicates + 1
        num_negatives := st.num_negatives + (if q2.neg_sentiment then 1 else 0)
        warnings := st.warnings +
          (if q2.neg_sentiment && (q.answer == q2.answer) then 1 else 0) }
    else st
  | _, _ => st

/-- The inner scan over a list of candidate positions. -/
def innerLoop (sim : String → String → Rat) (thr : Rat) (i : Nat) :
    St → List Nat → St
  | st, [] => st
  | st, j :: js => innerLoop sim thr i (innerStep sim thr i j st) js

/-- One iteration of the outer loop (lines 159-208) at position `i`:
count a foreign question (lines 165-166), skip it when it is already a
reference, a duplicate, or foreign (line 171), otherwise make it the
reference and scan `store[i+1:]`. -/
def outerStep (sim : String → String → Rat) (thr : Rat) (st : St) (i : Nat) : St :=
  match st.store[i]? with
  | none => st
  | some q =>
    let st1 := if q.foreign then { st with num_foreign := st.num_foreign + 1 } else st
    if q.reference || q.duplicate || q.foreign then st1
    else
      let st2 := { st1 with store := modifyIdx setReference i st1.store }
      innerLoop sim thr i st2 (List.range' (i + 1) (st2.store.length - (i + 1)))

/-- The outer loop over a list of positions. -/
def outerLoop (sim : String → String → Rat) (thr : Rat) :
    St → List Nat → St
  | st, [] => st
  | st, i :: rest => outerLoop sim thr (outerStep sim thr st i) rest

/-- Lines 142-143: `self.num_duplicates = 0`, `self.num_negatives = 0`. -/
def initCounters (st : St) : St :=
  { st with num_duplicates := 0, num_negatives := 0 }

/-- `Question_Store.process` (lines 128-208) as a pure state transformer:
reset the two counters, return early with status `ST_NOQ` when
`num_q == 1` (lines 146-149), otherwise run the clustering loop over
every position of the store.  The progress-bar calls are modelled in
`processP`; they touch no clustering state. -/
def process (sim : String → String → Rat) (thr : Rat) (st : St) : St :=
  let st1 := initCounters st
  if st1.num_q = 1 then { st1 with status := Status.ST_NOQ }
  else outerLoop sim thr st1 (List.range st1.store.length)

/-- The outer loop stopped after its first `k` iterations (used to state
properties that hold at every point during `process`). -/
def processUpTo (sim : String → String → Rat) (thr : Rat) (st : St) (k : Nat) : St :=
  outerLoop sim thr (initCounters st) (List.range k)

/-- The state in the middle of `process`: the outer loop has finished `k`
iterations and, when position `k` becomes an anchor, its inner scan has
handled only its first `m` candidates. -/
def processMid (sim : String → String → Rat) (thr : Rat) (st : St) (k m : Nat) : St :=
  let st1 := processUpTo sim thr st k
  match st1.store[k]? with
  | none => st1
  | some q =>
    let st2 := if q.foreign then { st1 with num_foreign := st1.num_foreign + 1 } else st1
    if q.reference || q.duplicate || q.foreign then st2
    else
      let st3 := { st2 with store := modifyIdx setReference k st2.store }
      innerLoop sim thr k st3
        (List.range' (k + 1) (min m (st3.store.length - (k + 1))))

/-- `CLI_PROGRESS.show_progress` (progress.py, lines 35-67) has two
required positional parameters `prog` and `ref`.  A call that supplies
no value for one of them raises `TypeError` in Python, modelled by the
`none` cases. -/
def show_progress (prog : Option Int) (ref : Option Int) : Except String Unit :=
  match prog, ref with
  | some _, some _ => Except.ok ()
  | _, _ => Except.error ("TypeError: show_progress missing required positional argument ref")

/-- The progress argument `int(idx * pps)` with `pps = 100 / self.num_q`
(line 157), computed with exact rational arithmetic. -/
def pct (nq : Nat) (idx : Nat) : Int :=
  Int.floor ((idx : Rat) * (100 / (nq : Rat)))

/-- A call site guarded by `if progress is True:`. -/
def progressCall (progress : Bool) (prog : Option Int) (ref : Option Int) :
    Except String Unit :=
  if progress then show_progress prog ref else Except.ok ()

/-- One outer iteration with the progress-bar calls of lines 161-162,
172-173 and 176-177 threaded through `Except`.  Each call site passes a
single positional argument, so `ref` is `none`. -/
def outerStepP (sim : String → String → Rat) (thr : Rat) (progress : Bool)
    (st : St) (i : Nat) : Except String St := do
  let _ ← progressCall progress (some (pct st.num_q i)) none
  match st.store[i]? with
  | none => Except.ok st
  | some q =>
    let st1 := if q.foreign then { st with num_foreign := st.num_foreign + 1 } else st
    if q.reference || q.duplicate || q.foreign then do
      let _ ← progressCall progress (some (pct st.num_q (i + 1))) none
      Except.ok st1
    else do
      let _ ← progressCall progress (some (pct st.num_q (i + 1))) none
      let st2 := { st1 with store := modifyIdx setReference i st1.store }
      Except.ok (innerLoop sim thr i st2 (List.range' (i + 1) (st2.store.length - (i + 1))))

/-- The outer loop with progress calls. -/
def outerLoopP (sim : String → String → Rat) (thr : Rat) (progress : Bool) :
    St → List Nat → Except String St
  | st, [] => Except.ok st
  | st, i :: rest => do
    let st2 ← outerStepP sim thr progress st i
    outerLoopP sim thr progress st2 rest

/-- `process` with the progress branch observable.  After the `num_q == 1`
early return, line 157 evaluates `100 / self.num_q`, which raises
`ZeroDivisionError` when the store is empty (the caller never invokes
`process` with zero questions, doubles_app.py lines 55-57). -/
def processP (sim : String → String → Rat) (thr : Rat) (progress : Bool)
    (st : St) : Except String St :=
  let st1 := initCounters st
  if st1.num_q = 1 then Except.ok { st1 with status := Status.ST_NOQ }
  else if st1.num_q = 0 then Except.error ("ZeroDivisionError: division by zero")
  else outerLoopP sim thr progress st1 (List.range st1.store.length)

/-- Rows of the `Unique_Questions` sheet (lines 266-273): every question
with `duplicate == False`, as `(Id, Question, Answer)`. -/
def exportUnique (st : St) : List (Int × String × String) :=
  (st.store.filter (fun q => !q.duplicate)).map
    (fun q => (q.lid, q.original_question, if q.answer then ("Yes") else ("No")))

/-- Rows of the `Duplicates` sheet (lines 285-293): every question with
`duplicate == True`, as `(Id, Question, Answer, Duplicate of)`. -/
def exportDuplicates (st : St) : List (Int × String × String × Int) :=
  (st.store.filter (fun q => q.duplicate)).map
    (fun q => (q.lid, q.original_question,
      (if q.answer then ("Yes") else ("No")), q.duplicate_of))

/-- Rows of the `Foreign` sheet (lines 304-311): every question with
`foreign == True`, as `(Id, Question, Answer)`. -/
def exportForeign (st : St) : List (Int × String × String) :=
  (st.store.filter (fun q => q.foreign)).map
    (fun q => (q.lid, q.original_question, if q.answer then ("Yes") else ("No")))

/-- The all-false question used as the out-of-range default of `List.getD`. -/
def q0 : Q :=
  { lid := 0
    original_question := ""
    foreign := false
    neg_sentiment := false
    question := ""
    answer := false
    reference := false
    unique := true
    duplicate := false
    duplicates := []
    duplicate_of := 0 }

/-- A store as `Question_Store.__init__` leaves it: no flags set and
`duplicate_of == 0` everywhere. -/
def cleanStore (s : List Q) : Bool :=
  s.all (fun q => !q.reference && !q.duplicate && q.unique && (q.duplicate_of == 0))

/-- The earliest position `i < j` whose question is a reference and whose
similarity with the question at `j` strictly exceeds the threshold. -/
def earliestRefMatch (sim : String → String → Rat) (thr : Rat)
    (s : List Q) (j : Nat) : Option Nat :=
  (List.range j).find? (fun i =>
    (s.getD i q0).reference && decide (thr < sim (s.getD i q0).question (s.getD j q0).question))

deriving instance DecidableEq for Except

/-- The clustering contract of a question marked duplicate: it is not a
reference, not unique, and `duplicate_of` carries the lid of an earlier
reference whose similarity with it strictly exceeds the threshold, while
every reference at a yet earlier position fails the threshold. -/
def DupOk (sim : String → String → Rat) (thr : Rat) (s : List Q) (j : Nat) (q : Q) : Prop :=
  q.reference = false ∧ q.unique = false ∧
  ∃ (i : Nat) (qi : Q), i < j ∧ s[i]? = some qi ∧ qi.reference = true ∧
    thr < sim qi.question q.question ∧ q.duplicate_of = qi.lid ∧
    ∀ (i2 : Nat) (qi2 : Q), i2 < i → s[i2]? = some qi2 → qi2.reference = true →
      sim qi2.question q.question ≤ thr

/-- Invariant of the store between outer-loop iterations, when the first
`k` positions have been visited. -/
structure OuterInv (sim : String → String → Rat) (thr : Rat) (k : Nat) (s : List Q) : Prop where
  flagsOk : ∀ (j : Nat) (q : Q), s[j]? = some q → q.unique = !q.duplicate
  refBound : ∀ (j : Nat) (q : Q), s[j]? = some q → q.reference = true →
    j < k ∧ q.foreign = false ∧ q.duplicate = false
  dupSpec : ∀ (j : Nat) (q : Q), s[j]? = some q → q.duplicate = true → DupOk sim thr s j q
  freshOf : ∀ (j : Nat) (q : Q), s[j]? = some q → q.duplicate = false → q.duplicate_of = 0
  noEarlyMatch : ∀ (j : Nat) (q : Q), s[j]? = some q → q.duplicate = false →
    ∀ (i : Nat) (qi : Q), i < j → s[i]? = some qi → qi.reference = true →
      sim qi.question q.question ≤ thr

/-- Invariant of the store during the inner scan of the anchor at
position `k`, when the candidates at positions below `t` have been
handled. -/
structure InnerInv (sim : String → String → Rat) (thr : Rat) (k t : Nat) (s : List Q) : Prop where
  flagsOk : ∀ (j : Nat) (q : Q), s[j]? = some q → q.unique = !q.duplicate
  refBound : ∀ (j : Nat) (q : Q), s[j]? = some q → q.reference = true →
    j ≤ k ∧ q.foreign = false ∧ q.duplicate = false
  anchorRef : ∀ (qk : Q), s[k]? = some qk → qk.reference = true
  dupSpec : ∀ (j : Nat) (q : Q), s[j]? = some q → q.duplicate = true → DupOk sim thr s j q
  freshOf : ∀ (j : Nat) (q : Q), s[j]? = some q → q.duplicate = false → q.duplicate_of = 0
  scanned : ∀ (j : Nat) (q : Q), s[j]? = some q → q.duplicate = false →
    ∀ (i : Nat) (qi : Q), i < j → s[i]? = some qi → qi.reference = true → (i < k ∨ j < t) →
      sim qi.question q.question ≤ thr

/-- A similarity oracle that never finds anything similar. -/
def simZero : String → String → Rat := fun _ _ => 0

/-- A similarity oracle that finds everything similar (score 9/10). -/
def simHigh : String → String → Rat := fun _ _ => mkRat 9 10

/-- A similarity oracle that always returns exactly 1/2. -/
def simHalf : String → String → Rat := fun _ _ => mkRat 1 2

/-- The threshold used by the concrete runs, `SS_MATCH = 1/2`. -/
def half : Rat := mkRat 1 2

/-- A freshly loaded store of two English questions. -/
def demoStore2 : St :=
  { store := [mkQuestion [] 1 "Do you like apples?" true false,
              mkQuestion [] 2 "Do you enjoy apples?" true false]
    num_q := 2, num_duplicates := 0, num_negatives := 0, num_foreign := 0
    status := Status.ST_NOQ, warnings := 0 }

/-- A freshly loaded store of one question. -/
def demoStore1 : St :=
  { store := [mkQuestion [] 1 "Do you like apples?" true false]
    num_q := 1, num_duplicates := 0, num_negatives := 0, num_foreign := 0
    status := Status.ST_NOQ, warnings := 0 }

/-- A freshly loaded store whose two questions have opposite expected
answers while the second carries no negation cue. -/
def demoC4 : St :=
  { store := [mkQuestion [] 1 "Do you like apples?" true false,
              mkQuestion [] 2 "Do you enjoy apples?" false false]
    num_q := 2, num_duplicates := 0, num_negatives := 0, num_foreign := 0
    status := Status.ST_NOQ, warnings := 0 }

/-- A freshly loaded store whose second question the language detector
flags as non-English. -/
def demoForeign : St :=
  { store := [mkQuestion [] 1 "Do you like apples?" true false,
              mkQuestion [] 2 "Aimez-vous les pommes?" true true]
    num_q := 2, num_duplicates := 0, num_negatives := 0, num_foreign := 0
    status := Status.ST_NOQ, warnings := 0 }

/-- A bare question pair used to exercise `innerStep` directly. -/
def qa : Q :=
  { lid := 1, original_question := "aa", foreign := false, neg_sentiment := false
    question := "aa", answer := true, reference := true, unique := true
    duplicate := false, duplicates := [], duplicate_of := 0 }

/-- Companion of `qa`; carries a negation cue and the same expected answer. -/
def qb : Q :=
  { lid := 2, original_question := "bb", foreign := false, neg_sentiment := true
    question := "bb", answer := true, reference := false, unique := true
    duplicate := false, duplicates := [], duplicate_of := 0 }

/-- A two-question state holding `qa` and `qb`. -/
def stPair : St :=
  { store := [qa, qb]
    num_q := 2, num_duplicates := 0, num_negatives := 0, num_foreign := 0
    status := Status.ST_NOQ, warnings := 0 }

theorem length_modifyIdx (f : Q → Q) : ∀ (n : Nat) (l : List Q),
    (modifyIdx f n l).length = l.length := by
  intro n
  induction n with
  | zero => intro l; cases l <;> simp [modifyIdx]
  | succ n ih => intro l; cases l <;> simp [modifyIdx, ih]

theorem getElem?_modifyIdx (f : Q → Q) : ∀ (n m : Nat) (l : List Q),
    (modifyIdx f n l)[m]? = if n = m then (l[m]?).map f else l[m]? := by
  intro n
  induction n with
  | zero =>
    intro m l
    cases l with
    | nil => simp [modifyIdx]
    | cons q qs => cases m <;> simp [modifyIdx]
  | succ n ih =>
    intro m l
    cases l with
    | nil => simp [modifyIdx]
    | cons q qs =>
      cases m with
      | zero => simp [modifyIdx]
      | succ m => simpa [modifyIdx, Nat.succ_inj] using ih m qs

/-- C9: on a store holding exactly one question `process` never enters the
clustering loop: the store is untouched (so the question keeps `unique`
true and `reference`/`duplicate` false), `num_duplicates` and
`num_negatives` are zero, the insufficient-data status `ST_NOQ` is
reported, and no exception is raised (with or without progress
reporting). -/
theorem claim_C9 (sim : String → String → Rat) (thr : Rat) (p : Bool)
    (st : St) (h : st.num_q = 1) :
    process sim thr st =
      { st with num_duplicates := 0, num_negatives := 0, status := Status.ST_NOQ }
    ∧ processP sim thr p st =
      Except.ok { st with num_duplicates := 0, num_negatives := 0, status := Status.ST_NOQ } := by
  constructor <;> simp [process, processP, initCounters, h]

/-- Witness for C9 at a concrete one-question store. -/
theorem claim_C9_witness :
    demoStore1.num_q = 1
    ∧ process simZero half demoStore1 =
      { demoStore1 with num_duplicates := 0, num_negatives := 0, status := Status.ST_NOQ } :=
  ⟨rfl, (claim_C9 simZero half true demoStore1 rfl).1⟩

/-- C1 (code bug): with progress reporting enabled, `process` does not
terminate normally: every in-loop progress call passes a single
positional argument to `CLI_PROGRESS.show_progress`, whose signature
requires both `prog` and `ref`, so Python raises `TypeError` on the
first outer iteration; with progress disabled the same store is
processed normally.  Evaluated here on a concrete two-question store. -/
theorem claim_C1 :
    processP simZero half true demoStore2 =
      Except.error ("TypeError: show_progress missing required positional argument ref")
    ∧ processP simZero half false demoStore2 = Except.ok (process simZero half demoStore2) := by
  constructor <;> decide

/-- C8: a similarity exactly equal to the threshold `SS_MATCH` is not a
match: the inner-scan step leaves the whole state unchanged; and whenever
the step changes anything at all, the candidate was not yet a duplicate
and the similarity was strictly above the threshold. -/
theorem claim_C8 (sim : String → String → Rat) (thr : Rat) (st : St)
    (i j : Nat) (q q2 : Q) (hi : st.store[i]? = some q) (hj : st.store[j]? = some q2) :
    (sim q.question q2.question = thr → innerStep sim thr i j st = st)
    ∧ (innerStep sim thr i j st ≠ st →
        q2.duplicate = false ∧ thr < sim q.question q2.question) := by
  constructor
  · intro he
    by_cases hd : q2.duplicate <;> simp [innerStep, hi, hj, hd, he, lt_irrefl]
  · intro hne
    by_cases hd : q2.duplicate
    · exact absurd (by simp [innerStep, hi, hj, hd]) hne
    · by_cases hlt : thr < sim q.question q2.question
      · exact ⟨by simpa using hd, hlt⟩
      · exact absurd (by simp [innerStep, hi, hj, hd, hlt]) hne

/-- Witness for C8: a concrete pair whose similarity is exactly the
threshold is not marked. -/
theorem claim_C8_witness :
    simHalf qa.question qb.question = half ∧ innerStep simHalf half 0 1 stPair = stPair :=
  ⟨rfl, (claim_C8 simHalf half stPair 0 1 qa qb rfl rfl).1 rfl⟩

/-- C10: the negation cue is exactly the presence of the standalone token
"not" in the lower-cased whitespace-split token list, checked before
punctuation stripping and before stop-word removal; tokens such as
"not?" or "not," do not set the cue, and membership of "not" in the
stop-word list does not clear it. -/
theorem claim_C10 :
    (∀ (stop_words : List String) (lid : Int) (text : String) (ans foreign : Bool),
      ((mkQuestion stop_words lid text ans foreign).neg_sentiment = true ↔
        "not" ∈ pySplit (pyLower text)))
    ∧ (mkQuestion [] 1 "Is it not so?" true false).neg_sentiment = true
    ∧ (mkQuestion [] 2 "Is it not? so" true false).neg_sentiment = false
    ∧ (mkQuestion [] 3 "Is it not, so" true false).neg_sentiment = false
    ∧ (mkQuestion ["not"] 4 "Is it not so?" true false).neg_sentiment = true := by
  refine ⟨?_, by decide, by decide, by decide, by decide⟩
  intro stop_words lid text ans f
  simp [mkQuestion]

/-- C4 fails on the code: in this processed store the second question is
marked duplicate of the first, the expected answers differ, the
candidate carries no negation cue, and yet no inconsistency warning is
logged (the code only warns when a negation cue is present and the
answers agree, lines 197-205). -/
theorem claim_C4_counterexample :
    (process simHigh half demoC4).warnings = 0
    ∧ ((process simHigh half demoC4).store.getD 1 q0).duplicate = true
    ∧ ((process simHigh half demoC4).store.getD 1 q0).neg_sentiment = false
    ∧ ((process simHigh half demoC4).store.getD 0 q0).answer = true
    ∧ ((process simHigh half demoC4).store.getD 1 q0).answer = false := by
  decide

/-- C4 as amended: when a candidate is marked duplicate of an anchor, an
inconsistency warning is logged exactly when the candidate carries a
negation cue and the two expected answers are equal (so none is logged
when the answers differ without a cue); the clustering outcome — the
store update and `num_duplicates` — is the same expression in either
case, unaffected by the warning condition, and no exception is raised. -/
theorem claim_C4_amended (sim : String → String → Rat) (thr : Rat) (st : St)
    (i j : Nat) (q q2 : Q) (hi : st.store[i]? = some q) (hj : st.store[j]? = some q2)
    (hd : q2.duplicate = false) (hs : thr < sim q.question q2.question) :
    (innerStep sim thr i j st).warnings =
      st.warnings + (if q2.neg_sentiment && (q.answer == q2.answer) then 1 else 0)
    ∧ (innerStep sim thr i j st).num_negatives =
      st.num_negatives + (if q2.neg_sentiment then 1 else 0)
    ∧ (innerStep sim thr i j st).num_duplicates = st.num_duplicates + 1
    ∧ (innerStep sim thr i j st).store =
      modifyIdx (addDuplicate q2.lid) i (modifyIdx (markDup q.lid) j st.store) := by
  simp [innerStep, hi, hj, hd, hs]

/-- Witness for the amended C4: the cue-present/answers-equal case logs
exactly one warning. -/
theorem claim_C4_amended_witness :
    (innerStep simHigh half 0 1 stPair).warnings =
      stPair.warnings + (if qb.neg_sentiment && (qa.answer == qb.answer) then 1 else 0) :=
  (claim_C4_amended simHigh half stPair 0 1 qa qb rfl rfl rfl (by decide)).1

/-- C2 fails on the code: after processing this store, question 2 (a
foreign, non-duplicate question) is exported both on the
`Unique_Questions` sheet (whose filter is only `duplicate == False`,
line 269) and on the `Foreign` sheet (line 307). -/
theorem claim_C2_counterexample :
    (2 : Int) ∈ (exportUnique (process simZero half demoForeign)).map (fun r => r.1)
    ∧ (2 : Int) ∈ (exportForeign (process simZero half demoForeign)).map (fun r => r.1) := by
  decide

/-- C2 as amended: the `Unique_Questions` and `Duplicates` sheets are
disjoint (no id with pairwise-distinct store ids appears on both), but
the `Foreign` sheet is not disjoint from them: every foreign question
appears on the `Foreign` sheet and also on one of the other two. -/
theorem claim_C2_amended (st : St) (h : (st.store.map (fun q => q.lid)).Nodup) :
    (∀ l : Int, l ∈ (exportUnique st).map (fun r => r.1) →
        l ∉ (exportDuplicates st).map (fun r => r.1))
    ∧ (∀ q ∈ st.store, q.foreign = true →
        q.lid ∈ (exportForeign st).map (fun r => r.1)
        ∧ (q.lid ∈ (exportUnique st).map (fun r => r.1)
           ∨ q.lid ∈ (exportDuplicates st).map (fun r => r.1))) := by
  constructor
  · intro l hu hd
    simp [exportUnique, List.mem_map, List.mem_filter] at hu
    simp [exportDuplicates, List.mem_map, List.mem_filter] at hd
    obtain ⟨u, ⟨humem, hudup⟩, hul⟩ := hu
    obtain ⟨d, ⟨hdmem, hddup⟩, hdl⟩ := hd
    have : u = d := List.inj_on_of_nodup_map h humem hdmem (by rw [hul, hdl])
    rw [this] at hudup
    rw [hddup] at hudup
    exact absurd hudup (by simp)
  · intro q hq hf
    refine ⟨?_, ?_⟩
    · simp [exportForeign, List.mem_map, List.mem_filter]
      exact ⟨q, ⟨hq, hf⟩, rfl⟩
    · by_cases hd : q.duplicate
      · right
        simp [exportDuplicates, List.mem_map, List.mem_filter]
        exact ⟨q, ⟨hq, hd⟩, rfl⟩
      · left
        simp [exportUnique, List.mem_map, List.mem_filter]
        exact ⟨q, ⟨hq, by simpa using hd⟩, rfl⟩

/-- Witness for the amended C2 at a concrete store with a foreign
question. -/
theorem claim_C2_amended_witness :
    (demoForeign.store.map (fun q => q.lid)).Nodup
    ∧ ((demoForeign.store.getD 1 q0).lid ∈ (exportForeign demoForeign).map (fun r => r.1)
       ∧ ((demoForeign.store.getD 1 q0).lid ∈ (exportUnique demoForeign).map (fun r => r.1)
          ∨ (demoForeign.store.getD 1 q0).lid ∈
              (exportDuplicates demoForeign).map (fun r => r.1))) :=
  ⟨by decide, (claim_C2_amended demoForeign (by decide)).2
    (demoForeign.store.getD 1 q0) (by decide) (by decide)⟩

theorem innerStep_cases (sim : String → String → Rat) (thr : Rat) (i j : Nat) (st : St) :
    (innerStep sim thr i j st = st ∧ (st.store[i]? = none ∨ st.store[j]? = none))
    ∨ (∃ q2 : Q, st.store[j]? = some q2 ∧ q2.duplicate = true ∧ innerStep sim thr i j st = st)
    ∨ (∃ (q q2 : Q), st.store[i]? = some q ∧ st.store[j]? = some q2 ∧ q2.duplicate = false ∧
        sim q.question q2.question ≤ thr ∧ innerStep sim thr i j st = st)
    ∨ (∃ (q q2 : Q), st.store[i]? = some q ∧ st.store[j]? = some q2 ∧ q2.duplicate = false ∧
        thr < sim q.question q2.question ∧
        innerStep sim thr i j st =
          { st with
            store := modifyIdx (addDuplicate q2.lid) i (modifyIdx (markDup q.lid) j st.store)
            num_duplicates := st.num_duplicates + 1
            num_negatives := st.num_negatives + (if q2.neg_sentiment then 1 else 0)
            warnings := st.warnings +
              (if q2.neg_sentiment && (q.answer == q2.answer) then 1 else 0) }) := by
  cases hi : st.store[i]? with
  | none =>
    cases hj : st.store[j]? with
    | none => exact Or.inl ⟨by simp [innerStep, hi, hj], Or.inl rfl⟩
    | some q2 => exact Or.inl ⟨by simp [innerStep, hi, hj], Or.inl rfl⟩
  | some q =>
    cases hj : st.store[j]? with
    | none => exact Or.inl ⟨by simp [innerStep, hi, hj], Or.inr rfl⟩
    | some q2 =>
      by_cases hd : q2.duplicate
      · exact Or.inr (Or.inl ⟨q2, rfl, hd, by simp [innerStep, hi, hj, hd]⟩)
      · by_cases hs : thr < sim q.question q2.question
        · exact Or.inr (Or.inr (Or.inr ⟨q, q2, rfl, rfl, by simpa using hd, hs,
            by simp [innerStep, hi, hj, hd, hs]⟩))
        · exact Or.inr (Or.inr (Or.inl ⟨q, q2, rfl, rfl, by simpa using hd, le_of_not_lt hs,
            by simp [innerStep, hi, hj, hd, hs]⟩))

theorem innerStep_length (sim : String → String → Rat) (thr : Rat) (i j : Nat) (st : St) :
    (innerStep sim thr i j st).store.length = st.store.length := by
  rcases innerStep_cases sim thr i j st with
    ⟨heq, _⟩ | ⟨q2, _, _, heq⟩ | ⟨q, q2, _, _, _, _, heq⟩ | ⟨q, q2, _, _, _, _, heq⟩ <;>
    simp [heq, length_modifyIdx]

theorem innerLoop_length (sim : String → String → Rat) (thr : Rat) (i : Nat) :
    ∀ (js : List Nat) (st : St),
      (innerLoop sim thr i st js).store.length = st.store.length := by
  intro js
  induction js with
  | nil => intro st; rfl
  | cons j js ih =>
    intro st
    rw [innerLoop, ih, innerStep_length]

theorem innerStep_num_q (sim : String → String → Rat) (thr : Rat) (i j : Nat) (st : St) :
    (innerStep sim thr i j st).num_q = st.num_q := by
  rcases innerStep_cases sim thr i j st with
    ⟨heq, _⟩ | ⟨q2, _, _, heq⟩ | ⟨q, q2, _, _, _, _, heq⟩ | ⟨q, q2, _, _, _, _, heq⟩ <;>
    simp [heq]

theorem innerLoop_num_q (sim : String → String → Rat) (thr : Rat) (i : Nat) :
    ∀ (js : List Nat) (st : St), (innerLoop sim thr i st js).num_q = st.num_q := by
  intro js
  induction js with
  | nil => intro st; rfl
  | cons j js ih => intro st; rw [innerLoop, ih, innerStep_num_q]

theorem InnerInv_succ (sim : String → String → Rat) (thr : Rat) (k t : Nat) (s : List Q)
    (h : InnerInv sim thr k t s)
    (hnew : ∀ (q qk : Q), s[t]? = some q → q.duplicate = false → s[k]? = some qk →
      qk.reference = true → sim qk.question q.question ≤ thr) :
    InnerInv sim thr k (t + 1) s := by
  refine ⟨h.flagsOk, h.refBound, h.anchorRef, h.dupSpec, h.freshOf, ?_⟩
  intro j q hj hd i qi hij hi href hguard
  rcases hguard with hik | hjt1
  · exact h.scanned j q hj hd i qi hij hi href (Or.inl hik)
  · by_cases hjt : j < t
    · exact h.scanned j q hj hd i qi hij hi href (Or.inr hjt)
    · have hjeq : j = t := by omega
      subst hjeq
      by_cases hik : i < k
      · exact h.scanned j q hj hd i qi hij hi href (Or.inl hik)
      · have hle : i ≤ k := (h.refBound i qi hi href).1
        have hieq : i = k := by omega
        subst hieq
        exact hnew q qi hj hd hi href

theorem innerStep_inv (sim : String → String → Rat) (thr : Rat) (k t : Nat) (st : St)
    (hkt : k < t) (h : InnerInv sim thr k t st.store) :
    InnerInv sim thr k (t + 1) (innerStep sim thr k t st).store := by
  rcases innerStep_cases sim thr k t st with
    ⟨heq, hnone⟩ | ⟨q2, hj, hd, heq⟩ | ⟨q, q2, hi, hj, hd, hle, heq⟩ |
    ⟨q, q2, hi, hj, hd, hlt, heq⟩
  · rw [heq]
    refine InnerInv_succ sim thr k t st.store h ?_
    intro q qk hqt _ hqk _
    rcases hnone with hk | ht
    · rw [hk] at hqk; cases hqk
    · rw [ht] at hqt; cases hqt
  · rw [heq]
    refine InnerInv_succ sim thr k t st.store h ?_
    intro q qk hqt hqd _ _
    rw [hj] at hqt
    cases hqt
    rw [hd] at hqd
    cases hqd
  · rw [heq]
    refine InnerInv_succ sim thr k t st.store h ?_
    intro q3 qk hqt _ hqk _
    rw [hj] at hqt
    cases hqt
    rw [hi] at hqk
    cases hqk
    exact hle
  · have hkt' : k ≠ t := by omega
    have htk' : t ≠ k := by omega
    have hstore : (innerStep sim thr k t st).store =
        modifyIdx (addDuplicate q2.lid) k (modifyIdx (markDup q.lid) t st.store) := by
      rw [heq]
    set s := st.store with hs
    set s2 := modifyIdx (addDuplicate q2.lid) k (modifyIdx (markDup q.lid) t s) with hs2
    rw [hstore]
    have hgk : s2[k]? = some (addDuplicate q2.lid q) := by
      simp [hs2, getElem?_modifyIdx, htk', hi]
    have hgt : s2[t]? = some (markDup q.lid q2) := by
      simp [hs2, getElem?_modifyIdx, hkt', hj]
    have hgo : ∀ m : Nat, k ≠ m → t ≠ m → s2[m]? = s[m]? := by
      intro m h1 h2
      simp [hs2, getElem?_modifyIdx, h1, h2]
    have hqref : q.reference = true := h.anchorRef q hi
    have hqflags := h.refBound k q hi hqref
    have hq2ref : q2.reference = false := by
      cases hr : q2.reference
      · rfl
      · exact absurd (h.refBound t q2 hj hr).1 (by omega)
    constructor
    -- flagsOk
    · intro m qm hm
      by_cases hmk : m = k
      · rw [hmk, hgk] at hm
        cases hm
        exact h.flagsOk k q hi
      · by_cases hmt : m = t
        · rw [hmt, hgt] at hm
          cases hm
          simp [markDup]
        · rw [hgo m (fun e => hmk e.symm) (fun e => hmt e.symm)] at hm
          exact h.flagsOk m qm hm
    -- refBound
    · intro m qm hm href
      by_cases hmk : m = k
      · rw [hmk, hgk] at hm
        cases hm
        exact ⟨by omega, hqflags.2.1, hqflags.2.2⟩
      · by_cases hmt : m = t
        · rw [hmt, hgt] at hm
          cases hm
          have hx : q2.reference = true := href
          rw [hq2ref] at hx
          cases hx
        · rw [hgo m (fun e => hmk e.symm) (fun e => hmt e.symm)] at hm
          exact h.refBound m qm hm href
    -- anchorRef
    · intro qk hqk
      rw [hgk] at hqk
      cases hqk
      simpa [addDuplicate] using hqref
    -- dupSpec
    · intro m qm hm hdup
      by_cases hmk : m = k
      · rw [hmk, hgk] at hm
        cases hm
        have hx : q.duplicate = true := hdup
        rw [hqflags.2.2] at hx
        cases hx
      · by_cases hmt : m = t
        · rw [hmt, hgt] at hm
          cases hm
          refine ⟨by simpa [markDup] using hq2ref, by simp [markDup], k,
            addDuplicate q2.lid q, by omega, hgk, by simpa [addDuplicate] using hqref,
            ?_, ?_, ?_⟩
          · simpa [addDuplicate, markDup] using hlt
          · simp [addDuplicate, markDup]
          · intro i2 qi2 hi2k hi2 href2
            have h1 : k ≠ i2 := by omega
            have h2 : t ≠ i2 := by omega
            rw [hgo i2 h1 h2] at hi2
            have hsc := h.scanned t q2 hj hd i2 qi2 (by omega) hi2 href2 (Or.inl hi2k)
            simpa [markDup] using hsc
        · rw [hgo m (fun e => hmk e.symm) (fun e => hmt e.symm)] at hm
          obtain ⟨href, huniq, i, qi, him, hgi, hiref, hsim, hof, hmin⟩ :=
            h.dupSpec m qm hm hdup
          have hik : i ≤ k := (h.refBound i qi hgi hiref).1
          refine ⟨href, huniq, ?_⟩
          by_cases hieq : i = k
          · rw [hieq] at him hgi hmin
            rw [hi] at hgi
            cases hgi
            refine ⟨k, addDuplicate q2.lid q, him, hgk, by simpa [addDuplicate] using hqref,
              by simpa [addDuplicate] using hsim, by simpa [addDuplicate] using hof, ?_⟩
            intro i2 qi2 hi2i hi2 href2
            have h1 : k ≠ i2 := by omega
            have h2 : t ≠ i2 := by omega
            rw [hgo i2 h1 h2] at hi2
            exact hmin i2 qi2 hi2i hi2 href2
          · have h1 : k ≠ i := fun e => hieq e.symm
            have h2 : t ≠ i := by omega
            refine ⟨i, qi, him, by rw [hgo i h1 h2]; exact hgi, hiref, hsim, hof, ?_⟩
            intro i2 qi2 hi2i hi2 href2
            have h3 : k ≠ i2 := by omega
            have h4 : t ≠ i2 := by omega
            rw [hgo i2 h3 h4] at hi2
            exact hmin i2 qi2 hi2i hi2 href2
    -- freshOf
    · intro m qm hm hdup
      by_cases hmk : m = k
      · rw [hmk, hgk] at hm
        cases hm
        simpa [addDuplicate] using h.freshOf k q hi hqflags.2.2
      · by_cases hmt : m = t
        · rw [hmt, hgt] at hm
          cases hm
          simp [markDup] at hdup
        · rw [hgo m (fun e => hmk e.symm) (fun e => hmt e.symm)] at hm
          exact h.freshOf m qm hm hdup
    -- scanned
    · intro j2 qj hj2 hjd i qi hij hi2 href hguard
      by_cases hjt : j2 = t
      · rw [hjt, hgt] at hj2
        cases hj2
        simp [markDup] at hjd
      · by_cases hjk : j2 = k
        · rw [hjk, hgk] at hj2
          cases hj2
          have h1 : k ≠ i := by omega
          have h2 : t ≠ i := by omega
          rw [hgo i h1 h2] at hi2
          have hsc := h.scanned k q hi hqflags.2.2 i qi (by omega) hi2 href
            (Or.inl (by omega))
          simpa [addDuplicate] using hsc
        · rw [hgo j2 (fun e => hjk e.symm) (fun e => hjt e.symm)] at hj2
          by_cases hit : i = t
          · rw [hit, hgt] at hi2
            cases hi2
            have hx : q2.reference = true := by simpa [markDup] using href
            rw [hq2ref] at hx
            cases hx
          · by_cases hik2 : i = k
            · rw [hik2, hgk] at hi2
              cases hi2
              have hjlt : j2 < t := by
                rcases hguard with hc | hc
                · omega
                · omega
              have hsc := h.scanned j2 qj hj2 hjd k q (by omega) hi hqref (Or.inr hjlt)
              simpa [addDuplicate] using hsc
            · rw [hgo i (fun e => hik2 e.symm) (fun e => hit e.symm)] at hi2
              rcases hguard with hc | hc
              · exact h.scanned j2 qj hj2 hjd i qi hij hi2 href (Or.inl hc)
              · have hik3 : i ≤ k := (h.refBound i qi hi2 href).1
                have hikx : i < k := by omega
                exact h.scanned j2 qj hj2 hjd i qi hij hi2 href (Or.inl hikx)

theorem innerLoop_inv (sim : String → String → Rat) (thr : Rat) (k : Nat) :
    ∀ (m t : Nat) (st : St), k < t → InnerInv sim thr k t st.store →
      InnerInv sim thr k (t + m) (innerLoop sim thr k st (List.range' t m)).store := by
  intro m
  induction m with
  | zero => intro t st _ h; simpa using h
  | succ m ih =>
    intro t st hkt h
    rw [List.range'_succ, innerLoop]
    have h1 := innerStep_inv sim thr k t st hkt h
    have h2 := ih (t + 1) (innerStep sim thr k t st) (by omega) h1
    have : t + 1 + m = t + (m + 1) := by omega
    rwa [this] at h2

theorem enterInner (sim : String → String → Rat) (thr : Rat) (k : Nat) (s : List Q)
    (q : Q) (hq : s[k]? = some q) (hr : q.reference = false) (hd : q.duplicate = false)
    (hf : q.foreign = false) (h : OuterInv sim thr k s) :
    InnerInv sim thr k (k + 1) (modifyIdx setReference k s) := by
  set s2 := modifyIdx setReference k s with hs2
  have hgk : s2[k]? = some (setReference q) := by
    simp [hs2, getElem?_modifyIdx, hq]
  have hgo : ∀ m : Nat, k ≠ m → s2[m]? = s[m]? := by
    intro m h1
    simp [hs2, getElem?_modifyIdx, h1]
  constructor
  -- flagsOk
  · intro m qm hm
    by_cases hmk : m = k
    · rw [hmk, hgk] at hm
      cases hm
      simpa [setReference] using h.flagsOk k q hq
    · rw [hgo m (fun e => hmk e.symm)] at hm
      exact h.flagsOk m qm hm
  -- refBound
  · intro m qm hm href
    by_cases hmk : m = k
    · rw [hmk, hgk] at hm
      cases hm
      exact ⟨by omega, by simpa [setReference] using hf, by simpa [setReference] using hd⟩
    · rw [hgo m (fun e => hmk e.symm)] at hm
      have hb := h.refBound m qm hm href
      exact ⟨by omega, hb.2.1, hb.2.2⟩
  -- anchorRef
  · intro qk hqk
    rw [hgk] at hqk
    cases hqk
    simp [setReference]
  -- dupSpec
  · intro m qm hm hdup
    by_cases hmk : m = k
    · rw [hmk, hgk] at hm
      cases hm
      have hx : q.duplicate = true := by simpa [setReference] using hdup
      rw [hd] at hx
      cases hx
    · rw [hgo m (fun e => hmk e.symm)] at hm
      obtain ⟨href, huniq, i, qi, him, hgi, hiref, hsim, hof, hmin⟩ :=
        h.dupSpec m qm hm hdup
      have hik : i < k := (h.refBound i qi hgi hiref).1
      refine ⟨href, huniq, i, qi, him, by rw [hgo i (by omega)]; exact hgi, hiref,
        hsim, hof, ?_⟩
      intro i2 qi2 hi2i hi2 href2
      rw [hgo i2 (by omega)] at hi2
      exact hmin i2 qi2 hi2i hi2 href2
  -- freshOf
  · intro m qm hm hdup
    by_cases hmk : m = k
    · rw [hmk, hgk] at hm
      cases hm
      simpa [setReference] using h.freshOf k q hq hd
    · rw [hgo m (fun e => hmk e.symm)] at hm
      exact h.freshOf m qm hm hdup
  -- scanned
  · intro j qj hj hjd i qi hij hi href hguard
    by_cases hjk : j = k
    · rw [hjk, hgk] at hj
      cases hj
      have h2 : k ≠ i := by omega
      rw [hgo i h2] at hi
      have hsc := h.noEarlyMatch k q hq hd i qi (by omega) hi href
      simpa [setReference] using hsc
    · rw [hgo j (fun e => hjk e.symm)] at hj
      by_cases hik : i = k
      · rcases hguard with hc | hc
        · omega
        · omega
      · rw [hgo i (fun e => hik e.symm)] at hi
        exact h.noEarlyMatch j qj hj hjd i qi hij hi href

theorem exitInner (sim : String → String → Rat) (thr : Rat) (k t : Nat) (s : List Q)
    (ht : s.length ≤ t) (h : InnerInv sim thr k t s) : OuterInv sim thr (k + 1) s := by
  constructor
  · exact h.flagsOk
  · intro j q hj href
    have hb := h.refBound j q hj href
    exact ⟨by omega, hb.2.1, hb.2.2⟩
  · exact h.dupSpec
  · exact h.freshOf
  · intro j q hj hd i qi hij hi href
    have hjlen : j < s.length := by
      by_contra hc
      rw [List.getElem?_eq_none (by omega)] at hj
      cases hj
    have hik : i ≤ k := (h.refBound i qi hi href).1
    by_cases hikx : i < k
    · exact h.scanned j q hj hd i qi hij hi href (Or.inl hikx)
    · exact h.scanned j q hj hd i qi hij hi href (Or.inr (by omega))

theorem OuterInv_mono (sim : String → String → Rat) (thr : Rat) (k k2 : Nat)
    (s : List Q) (hk : k ≤ k2) (h : OuterInv sim thr k s) : OuterInv sim thr k2 s := by
  refine ⟨h.flagsOk, ?_, h.dupSpec, h.freshOf, h.noEarlyMatch⟩
  intro j q hj href
  have hb := h.refBound j q hj href
  exact ⟨by omega, hb.2.1, hb.2.2⟩

theorem outerStep_inv (sim : String → String → Rat) (thr : Rat) (k : Nat) (st : St)
    (h : OuterInv sim thr k st.store) :
    OuterInv sim thr (k + 1) (outerStep sim thr st k).store := by
  cases hq : st.store[k]? with
  | none =>
    have : outerStep sim thr st k = st := by simp [outerStep, hq]
    rw [this]
    exact OuterInv_mono sim thr k (k + 1) st.store (by omega) h
  | some q =>
    by_cases hskip : q.reference || q.duplicate || q.foreign
    · have : (outerStep sim thr st k).store = st.store := by
        by_cases hf : q.foreign
        · simp [outerStep, hq, hf]
        · have hf2 : q.foreign = false := by simpa using hf
          have hrd : q.reference = true ∨ q.duplicate = true := by
            simpa [hf2] using hskip
          simp [outerStep, hq, hf2, hrd]
      rw [this]
      exact OuterInv_mono sim thr k (k + 1) st.store (by omega) h
    · have hr : q.reference = false := by
        cases hx : q.reference
        · rfl
        · rw [hx] at hskip; simp at hskip
      have hd : q.duplicate = false := by
        cases hx : q.duplicate
        · rfl
        · rw [hx] at hskip; simp at hskip
      have hf : q.foreign = false := by
        cases hx : q.foreign
        · rfl
        · rw [hx] at hskip; simp at hskip
      have hstep : (outerStep sim thr st k).store =
          (innerLoop sim thr k
            { st with store := modifyIdx setReference k st.store }
            (List.range' (k + 1) ((modifyIdx setReference k st.store).length - (k + 1)))).store := by
      -- the `if q.foreign` branch adds nothing since q.foreign = false
        simp [outerStep, hq, hr, hd, hf]
      rw [hstep]
      have hk : k < st.store.length := by
        by_contra hc
        rw [List.getElem?_eq_none (by omega)] at hq
        cases hq
      have henter := enterInner sim thr k st.store q hq hr hd hf h
      have hinner := innerLoop_inv sim thr k
        ((modifyIdx setReference k st.store).length - (k + 1)) (k + 1)
        { st with store := modifyIdx setReference k st.store } (by omega) henter
      have hlen : (modifyIdx setReference k st.store).length = st.store.length := by
        rw [length_modifyIdx]
      have hfin : (k + 1) + ((modifyIdx setReference k st.store).length - (k + 1)) =
          st.store.length := by
        rw [hlen]; omega
      rw [hfin] at hinner
      refine exitInner sim thr k st.store.length _ ?_ hinner
      rw [innerLoop_length]
      simp [hlen]

theorem outerLoop_inv (sim : String → String → Rat) (thr : Rat) :
    ∀ (m k : Nat) (st : St), OuterInv sim thr k st.store →
      OuterInv sim thr (k + m) ((outerLoop sim thr st (List.range' k m)).store) := by
  intro m
  induction m with
  | zero => intro k st h; simpa using h
  | succ m ih =>
    intro k st h
    rw [List.range'_succ, outerLoop]
    have h1 := outerStep_inv sim thr k st h
    have h2 := ih (k + 1) (outerStep sim thr st k) h1
    have : k + 1 + m = k + (m + 1) := by omega
    rwa [this] at h2

theorem clean_OuterInv (sim : String → String → Rat) (thr : Rat) (s : List Q)
    (h : cleanStore s = true) (k : Nat) : OuterInv sim thr k s := by
  have hall : ∀ (j : Nat) (q : Q), s[j]? = some q →
      q.reference = false ∧ q.duplicate = false ∧ q.unique = true ∧ q.duplicate_of = 0 := by
    intro j q hj
    have hmem : q ∈ s := by
      have := List.getElem?_eq_some.mp hj
      obtain ⟨hlt, hget⟩ := this
      exact hget ▸ List.getElem_mem hlt
    have hx := List.all_eq_true.mp h q hmem
    simp only [Bool.and_eq_true, Bool.not_eq_true', beq_iff_eq] at hx
    exact ⟨hx.1.1.1, hx.1.1.2, hx.1.2, hx.2⟩
  constructor
  · intro j q hj
    have hq := hall j q hj
    rw [hq.2.2.1, hq.2.1]
    rfl
  · intro j q hj href
    rw [(hall j q hj).1] at href
    cases href
  · intro j q hj hdup
    rw [(hall j q hj).2.1] at hdup
    cases hdup
  · intro j q hj _
    exact (hall j q hj).2.2.2
  · intro j q hj _ i qi hij hi href
    rw [(hall i qi hi).1] at href
    cases href

theorem process_inv (sim : String → String → Rat) (thr : Rat) (st : St)
    (h : cleanStore st.store = true) :
    OuterInv sim thr st.store.length (process sim thr st).store := by
  by_cases h1 : st.num_q = 1
  · have : process sim thr st =
        { st with num_duplicates := 0, num_negatives := 0, status := Status.ST_NOQ } := by
      simp [process, initCounters, h1]
    rw [this]
    exact clean_OuterInv sim thr st.store h st.store.length
  · have : process sim thr st =
        outerLoop sim thr (initCounters st) (List.range st.store.length) := by
      simp [process, initCounters, h1]
    rw [this, List.range_eq_range']
    have hbase : OuterInv sim thr 0 (initCounters st).store :=
      clean_OuterInv sim thr st.store h 0
    simpa using outerLoop_inv sim thr st.store.length 0 (initCounters st) hbase

theorem getD_get? (l : List Q) (j : Nat) (d : Q) : l.getD j d = (l[j]?).getD d := by
  simp [List.getD_eq_getElem?_getD]

theorem outerStep_num_q (sim : String → String → Rat) (thr : Rat) (st : St) (k : Nat) :
    (outerStep sim thr st k).num_q = st.num_q := by
  cases hq : st.store[k]? with
  | none => simp [outerStep, hq]
  | some q =>
    by_cases hf : q.foreign = true
    · simp [outerStep, hq, hf]
    · have hf2 : q.foreign = false := by simpa using hf
      by_cases hrd : q.reference = true ∨ q.duplicate = true
      · simp [outerStep, hq, hf2, hrd]
      · have h3 : q.reference = false ∧ q.duplicate = false := by
          constructor
          · cases hx : q.reference
            · rfl
            · exact absurd (Or.inl hx) hrd
          · cases hx : q.duplicate
            · rfl
            · exact absurd (Or.inr hx) hrd
        simp [outerStep, hq, hf2, h3.1, h3.2, innerLoop_num_q]

theorem outerStep_length (sim : String → String → Rat) (thr : Rat) (st : St) (k : Nat) :
    (outerStep sim thr st k).store.length = st.store.length := by
  cases hq : st.store[k]? with
  | none => simp [outerStep, hq]
  | some q =>
    by_cases hf : q.foreign = true
    · simp [outerStep, hq, hf]
    · have hf2 : q.foreign = false := by simpa using hf
      by_cases hrd : q.reference = true ∨ q.duplicate = true
      · simp [outerStep, hq, hf2, hrd]
      · have h3 : q.reference = false ∧ q.duplicate = false := by
          constructor
          · cases hx : q.reference
            · rfl
            · exact absurd (Or.inl hx) hrd
          · cases hx : q.duplicate
            · rfl
            · exact absurd (Or.inr hx) hrd
        simp [outerStep, hq, hf2, h3.1, h3.2, innerLoop_length, length_modifyIdx]

theorem outerLoop_num_q (sim : String → String → Rat) (thr : Rat) :
    ∀ (rest : List Nat) (st : St), (outerLoop sim thr st rest).num_q = st.num_q := by
  intro rest
  induction rest with
  | nil => intro st; rfl
  | cons i rest ih => intro st; rw [outerLoop, ih, outerStep_num_q]

theorem outerLoop_length (sim : String → String → Rat) (thr : Rat) :
    ∀ (rest : List Nat) (st : St),
      (outerLoop sim thr st rest).store.length = st.store.length := by
  intro rest
  induction rest with
  | nil => intro st; rfl
  | cons i rest ih => intro st; rw [outerLoop, ih, outerStep_length]

theorem process_length (sim : String → String → Rat) (thr : Rat) (st : St) :
    (process sim thr st).store.length = st.store.length := by
  by_cases h1 : st.num_q = 1
  · simp [process, initCounters, h1]
  · simp [process, initCounters, h1, outerLoop_length]

theorem count_split : ∀ (l : List Q), (∀ q ∈ l, q.unique = !q.duplicate) →
    (l.filter (fun q => q.unique)).length + (l.filter (fun q => q.duplicate)).length =
      l.length := by
  intro l
  induction l with
  | nil => intro _; rfl
  | cons a l ih =>
    intro h
    have ha := h a (List.mem_cons_self a l)
    have hl := ih (fun q hq => h q (List.mem_cons_of_mem a hq))
    cases hd : a.duplicate <;> rw [hd] at ha <;>
      simp [List.filter_cons, ha, hd, hl] <;> omega

/-- C5: after `process`, the questions with `unique` true and those with
`duplicate` true together count every question: `unique` is the exact
complement of `duplicate`, whether or not a question is foreign, so the
two filtered sets partition the store of `num_q` questions. -/
theorem claim_C5 (sim : String → String → Rat) (thr : Rat) (st : St)
    (h : cleanStore st.store = true) (hq : st.num_q = st.store.length)
    (h2 : 2 ≤ st.num_q) :
    ((process sim thr st).store.filter (fun q => q.unique)).length +
      ((process sim thr st).store.filter (fun q => q.duplicate)).length = st.num_q := by
  have hinv := process_inv sim thr st h
  have hmemp : ∀ q ∈ (process sim thr st).store, q.unique = !q.duplicate := by
    intro q hmem
    obtain ⟨j, hj⟩ := List.mem_iff_getElem?.mp hmem
    exact hinv.flagsOk j q hj
  rw [count_split _ hmemp, process_length, hq]

/-- Witness for C5 at a concrete clean two-question store. -/
theorem claim_C5_witness :
    cleanStore demoStore2.store = true
    ∧ demoStore2.num_q = demoStore2.store.length
    ∧ 2 ≤ demoStore2.num_q
    ∧ ((process simHigh half demoStore2).store.filter (fun q => q.unique)).length +
        ((process simHigh half demoStore2).store.filter (fun q => q.duplicate)).length =
        demoStore2.num_q :=
  ⟨by decide, by decide, by decide,
    claim_C5 simHigh half demoStore2 (by decide) (by decide) (by decide)⟩

/-- C6: a question marked `reference` by `process` is never foreign (the
outer loop skips foreign anchors), yet foreign questions do take part in
the inner scan: in the concrete run below the foreign question at
position 1 is marked duplicate of the non-foreign reference at
position 0. -/
theorem claim_C6 :
    (∀ (sim : String → String → Rat) (thr : Rat) (st : St), cleanStore st.store = true →
      ∀ j : Nat, ((process sim thr st).store.getD j q0).reference = true →
        ((process sim thr st).store.getD j q0).foreign = false)
    ∧ ((process simHigh half demoForeign).store.getD 1 q0).foreign = true
    ∧ ((process simHigh half demoForeign).store.getD 1 q0).duplicate = true
    ∧ ((process simHigh half demoForeign).store.getD 1 q0).duplicate_of = 1
    ∧ ((process simHigh half demoForeign).store.getD 0 q0).reference = true
    ∧ ((process simHigh half demoForeign).store.getD 0 q0).foreign = false := by
  refine ⟨?_, by decide, by decide, by decide, by decide, by decide⟩
  intro sim thr st h j href
  have hinv := process_inv sim thr st h
  cases hj : (process sim thr st).store[j]? with
  | none =>
    rw [getD_get?, hj] at href
    simp [q0] at href
  | some q =>
    rw [getD_get?, hj] at href ⊢
    exact (hinv.refBound j q hj (by simpa using href)).2.1

/-- Witness for C6 at the concrete foreign-question store. -/
theorem claim_C6_witness :
    cleanStore demoForeign.store = true
    ∧ ((process simHigh half demoForeign).store.getD 0 q0).foreign = false :=
  ⟨by decide, claim_C6.1 simHigh half demoForeign (by decide) 0 (by decide)⟩

theorem processUpTo_inv (sim : String → String → Rat) (thr : Rat) (st : St) (k : Nat)
    (h : cleanStore st.store = true) :
    OuterInv sim thr k (processUpTo sim thr st k).store := by
  unfold processUpTo
  rw [List.range_eq_range']
  simpa using outerLoop_inv sim thr k 0 (initCounters st)
    (clean_OuterInv sim thr st.store h 0)

theorem processMid_store (sim : String → String → Rat) (thr : Rat) (st : St) (k m : Nat) :
    (processMid sim thr st k m).store = (processUpTo sim thr st k).store
    ∨ ∃ q : Q, (processUpTo sim thr st k).store[k]? = some q ∧ q.reference = false
        ∧ q.duplicate = false ∧ q.foreign = false
        ∧ (processMid sim thr st k m).store =
          (innerLoop sim thr k
            { processUpTo sim thr st k with
              store := modifyIdx setReference k (processUpTo sim thr st k).store }
            (List.range' (k + 1)
              (min m ((modifyIdx setReference k
                (processUpTo sim thr st k).store).length - (k + 1))))).store := by
  cases hq : (processUpTo sim thr st k).store[k]? with
  | none => exact Or.inl (by simp [processMid, hq])
  | some q =>
    by_cases hf : q.foreign = true
    · exact Or.inl (by simp [processMid, hq, hf])
    · have hf2 : q.foreign = false := by simpa using hf
      by_cases hrd : q.reference = true ∨ q.duplicate = true
      · exact Or.inl (by simp [processMid, hq, hf2, hrd])
      · have hr : q.reference = false := by
          cases hx : q.reference
          · rfl
          · exact absurd (Or.inl hx) hrd
        have hd : q.duplicate = false := by
          cases hx : q.duplicate
          · rfl
          · exact absurd (Or.inr hx) hrd
        exact Or.inr ⟨q, rfl, hr, hd, hf2, by simp [processMid, hq, hf2, hr, hd]⟩

theorem processMid_flags (sim : String → String → Rat) (thr : Rat) (st : St)
    (k m : Nat) (h : cleanStore st.store = true) :
    ∀ (j : Nat) (q : Q), (processMid sim thr st k m).store[j]? = some q →
      (q.reference = true → j ≤ k ∧ q.duplicate = false)
      ∧ (q.duplicate = true → q.reference = false) := by
  have hup := processUpTo_inv sim thr st k h
  rcases processMid_store sim thr st k m with heq | ⟨q, hq, hr, hd, hf, heq⟩
  · rw [heq]
    intro j q hj
    refine ⟨?_, ?_⟩
    · intro href
      have hb := hup.refBound j q hj href
      exact ⟨by omega, hb.2.2⟩
    · intro hdup
      exact (hup.dupSpec j q hj hdup).1
  · rw [heq]
    have henter := enterInner sim thr k (processUpTo sim thr st k).store q hq hr hd hf hup
    have hinner := innerLoop_inv sim thr k
      (min m ((modifyIdx setReference k (processUpTo sim thr st k).store).length - (k + 1)))
      (k + 1)
      { processUpTo sim thr st k with
        store := modifyIdx setReference k (processUpTo sim thr st k).store }
      (by omega) henter
    intro j q2 hj
    refine ⟨?_, ?_⟩
    · intro href
      have hb := hinner.refBound j q2 hj href
      exact ⟨hb.1, hb.2.2⟩
    · intro hdup
      exact (hinner.dupSpec j q2 hj hdup).1

theorem innerStep_dup_mono (sim : String → String → Rat) (thr : Rat) (i j m : Nat)
    (st : St) (q : Q) (hm : st.store[m]? = some q) (hd : q.duplicate = true) :
    ∃ q2 : Q, (innerStep sim thr i j st).store[m]? = some q2 ∧ q2.duplicate = true := by
  rcases innerStep_cases sim thr i j st with
    ⟨heq, _⟩ | ⟨q2, _, _, heq⟩ | ⟨qq, q2, _, _, _, _, heq⟩ | ⟨qq, q2, hi, hj, hd2, hlt, heq⟩
  · exact ⟨q, by rw [heq]; exact hm, hd⟩
  · exact ⟨q, by rw [heq]; exact hm, hd⟩
  · exact ⟨q, by rw [heq]; exact hm, hd⟩
  · have hstore : (innerStep sim thr i j st).store =
        modifyIdx (addDuplicate q2.lid) i (modifyIdx (markDup qq.lid) j st.store) := by
      rw [heq]
    rw [hstore]
    by_cases hmj : m = j
    · rw [hmj] at hm
      rw [hm] at hj
      cases hj
      rw [hd] at hd2
      cases hd2
    · by_cases hmi : m = i
      · have hji : ¬(j = i) := by omega
        rw [hmi] at hm ⊢
        rw [hm] at hi
        cases hi
        exact ⟨addDuplicate q2.lid q, by simp [getElem?_modifyIdx, hji, hm],
          by simpa [addDuplicate] using hd⟩
      · have h1 : ¬(i = m) := by omega
        have h2 : ¬(j = m) := by omega
        exact ⟨q, by simp [getElem?_modifyIdx, h1, h2, hm], hd⟩

theorem innerLoop_dup_mono (sim : String → String → Rat) (thr : Rat) (i : Nat) :
    ∀ (js : List Nat) (st : St) (m : Nat) (q : Q),
      st.store[m]? = some q → q.duplicate = true →
      ∃ q2 : Q, (innerLoop sim thr i st js).store[m]? = some q2 ∧ q2.duplicate = true := by
  intro js
  induction js with
  | nil => intro st m q hm hd; exact ⟨q, hm, hd⟩
  | cons j js ih =>
    intro st m q hm hd
    rw [innerLoop]
    obtain ⟨q2, hm2, hd2⟩ := innerStep_dup_mono sim thr i j m st q hm hd
    exact ih (innerStep sim thr i j st) m q2 hm2 hd2

theorem outerStep_dup_mono (sim : String → String → Rat) (thr : Rat) (k m : Nat)
    (st : St) (q : Q) (hm : st.store[m]? = some q) (hd : q.duplicate = true) :
    ∃ q2 : Q, (outerStep sim thr st k).store[m]? = some q2 ∧ q2.duplicate = true := by
  cases hq : st.store[k]? with
  | none =>
    have : (outerStep sim thr st k).store = st.store := by simp [outerStep, hq]
    exact ⟨q, by rw [this]; exact hm, hd⟩
  | some qk =>
    by_cases hf : qk.foreign = true
    · have : (outerStep sim thr st k).store = st.store := by simp [outerStep, hq, hf]
      exact ⟨q, by rw [this]; exact hm, hd⟩
    · have hf2 : qk.foreign = false := by simpa using hf
      by_cases hrd : qk.reference = true ∨ qk.duplicate = true
      · have : (outerStep sim thr st k).store = st.store := by
          simp [outerStep, hq, hf2, hrd]
        exact ⟨q, by rw [this]; exact hm, hd⟩
      · have hr : qk.reference = false := by
          cases hx : qk.reference
          · rfl
          · exact absurd (Or.inl hx) hrd
        have hdk : qk.duplicate = false := by
          cases hx : qk.duplicate
          · rfl
          · exact absurd (Or.inr hx) hrd
        have hstep : (outerStep sim thr st k).store =
            (innerLoop sim thr k { st with store := modifyIdx setReference k st.store }
              (List.range' (k + 1)
                ((modifyIdx setReference k st.store).length - (k + 1)))).store := by
          simp [outerStep, hq, hf2, hr, hdk]
        rw [hstep]
        have hmk : ¬(m = k) := by
          intro he
          rw [he] at hm
          rw [hm] at hq
          cases hq
          rw [hd] at hdk
          cases hdk
        have hm2 : (modifyIdx setReference k st.store)[m]? = some q := by
          have hkm : ¬(k = m) := by omega
          simp [getElem?_modifyIdx, hkm, hm]
        exact innerLoop_dup_mono sim thr k _
          { st with store := modifyIdx setReference k st.store } m q hm2 hd

theorem outerLoop_dup_mono (sim : String → String → Rat) (thr : Rat) :
    ∀ (rest : List Nat) (st : St) (m : Nat) (q : Q),
      st.store[m]? = some q → q.duplicate = true →
      ∃ q2 : Q, (outerLoop sim thr st rest).store[m]? = some q2 ∧ q2.duplicate = true := by
  intro rest
  induction rest with
  | nil => intro st m q hm hd; exact ⟨q, hm, hd⟩
  | cons i rest ih =>
    intro st m q hm hd
    rw [outerLoop]
    obtain ⟨q2, hm2, hd2⟩ := outerStep_dup_mono sim thr i m st q hm hd
    exact ih (outerStep sim thr st i) m q2 hm2 hd2

theorem outerLoop_append (sim : String → String → Rat) (thr : Rat) :
    ∀ (l1 l2 : List Nat) (st : St),
      outerLoop sim thr st (l1 ++ l2) = outerLoop sim thr (outerLoop sim thr st l1) l2 := by
  intro l1
  induction l1 with
  | nil => intro l2 st; rfl
  | cons i l1 ih => intro l2 st; rw [List.cons_append, outerLoop, outerLoop, ih]

theorem processUpTo_dup_mono (sim : String → String → Rat) (thr : Rat) (st : St)
    (k k2 : Nat) (hk : k ≤ k2) (m : Nat) (q : Q)
    (hm : (processUpTo sim thr st k).store[m]? = some q) (hd : q.duplicate = true) :
    ∃ q2 : Q, (processUpTo sim thr st k2).store[m]? = some q2 ∧ q2.duplicate = true := by
  have hsplit : List.range k2 = List.range k ++ List.range' k (k2 - k) := by
    rw [List.range_eq_range', List.range_eq_range']
    have hx := List.range'_append 0 k (k2 - k) 1
    simp at hx
    rw [hx]
    congr 1
    omega
  unfold processUpTo
  rw [hsplit, outerLoop_append]
  exact outerLoop_dup_mono sim thr (List.range' k (k2 - k))
    (processUpTo sim thr st k) m q hm hd

/-- C7: at every point during `process` — after any number `k` of outer
iterations and any number `m` of inner-scan steps of the current anchor —
no question is both a reference and a duplicate, no question beyond the
current anchor position is a reference (so an inner-scan candidate at
`j > k` is never already a reference), a question once marked duplicate
stays duplicate at every later outer stage, and the same exclusivity
holds in the final state of `process`. -/
theorem claim_C7 (sim : String → String → Rat) (thr : Rat) (st : St)
    (h : cleanStore st.store = true) :
    (∀ k m j : Nat,
      ¬(((processMid sim thr st k m).store.getD j q0).reference = true
        ∧ ((processMid sim thr st k m).store.getD j q0).duplicate = true))
    ∧ (∀ k m j : Nat, k < j →
        ((processMid sim thr st k m).store.getD j q0).reference = false)
    ∧ (∀ k k2 j : Nat, k ≤ k2 →
        ((processUpTo sim thr st k).store.getD j q0).duplicate = true →
        ((processUpTo sim thr st k2).store.getD j q0).duplicate = true)
    ∧ (∀ j : Nat,
        ¬(((process sim thr st).store.getD j q0).reference = true
          ∧ ((process sim thr st).store.getD j q0).duplicate = true)) := by
  refine ⟨?_, ?_, ?_, ?_⟩
  · intro k m j hand
    cases hj : (processMid sim thr st k m).store[j]? with
    | none =>
      rw [getD_get?, hj] at hand
      simp [q0] at hand
    | some q =>
      rw [getD_get?, hj] at hand
      simp at hand
      have hflags := processMid_flags sim thr st k m h j q hj
      rw [hflags.2 hand.2] at hand
      cases hand.1
  · intro k m j hkj
    cases hj : (processMid sim thr st k m).store[j]? with
    | none =>
      rw [getD_get?, hj]
      simp [q0]
    | some q =>
      rw [getD_get?, hj]
      simp only [Option.getD_some]
      cases hr : q.reference
      · rfl
      · have hflags := processMid_flags sim thr st k m h j q hj
        have := (hflags.1 hr).1
        omega
  · intro k k2 j hk hdup
    cases hj : (processUpTo sim thr st k).store[j]? with
    | none =>
      rw [getD_get?, hj] at hdup
      simp [q0] at hdup
    | some q =>
      rw [getD_get?, hj] at hdup
      simp at hdup
      obtain ⟨q2, hj2, hd2⟩ := processUpTo_dup_mono sim thr st k k2 hk j q hj hdup
      rw [getD_get?, hj2]
      simpa using hd2
  · intro j hand
    have hinv := process_inv sim thr st h
    cases hj : (process sim thr st).store[j]? with
    | none =>
      rw [getD_get?, hj] at hand
      simp [q0] at hand
    | some q =>
      rw [getD_get?, hj] at hand
      simp at hand
      have hrf := (hinv.dupSpec j q hj hand.2).1
      rw [hrf] at hand
      cases hand.1

/-- Witness for C7 at a concrete clean store and stage. -/
theorem claim_C7_witness :
    cleanStore demoStore2.store = true
    ∧ ¬(((processMid simHigh half demoStore2 0 5).store.getD 1 q0).reference = true
        ∧ ((processMid simHigh half demoStore2 0 5).store.getD 1 q0).duplicate = true) :=
  ⟨by decide, (claim_C7 simHigh half demoStore2 (by decide)).1 0 5 1⟩

theorem find?_range_some (p : Nat → Bool) (i : Nat) : ∀ (j : Nat), i < j → p i = true →
    (∀ i2 : Nat, i2 < i → p i2 = false) → (List.range j).find? p = some i := by
  intro j
  induction j with
  | zero => intro h; omega
  | succ j ih =>
    intro hij hp hmin
    rw [List.range_succ, List.find?_append]
    by_cases hj : i < j
    · rw [ih hj hp hmin]
      rfl
    · have hieq : i = j := by omega
      have hnone : (List.range j).find? p = none := by
        rw [List.find?_eq_none]
        intro x hx
        have hxj : x < j := List.mem_range.mp hx
        simp [hmin x (by omega)]
      rw [hnone]
      simp [← hieq, hp]

/-- C3: every question marked duplicate at the end of `process` carries in
`duplicate_of` the lid of the earliest-position reference whose
similarity with it strictly exceeds the threshold (every earlier
reference fails the threshold, so the value is assigned exactly once and
never overwritten), such a question is never a reference, a duplicate
candidate is skipped without comparison by the inner scan, and a
duplicate question is never turned into an anchor by the outer loop. -/
theorem claim_C3 (sim : String → String → Rat) (thr : Rat) (st : St)
    (h : cleanStore st.store = true) :
    (∀ j : Nat, ((process sim thr st).store.getD j q0).duplicate = true →
      (earliestRefMatch sim thr (process sim thr st).store j).map
          (fun i => ((process sim thr st).store.getD i q0).lid) =
        some (((process sim thr st).store.getD j q0).duplicate_of)
      ∧ ((process sim thr st).store.getD j q0).reference = false)
    ∧ (∀ (st2 : St) (i j : Nat), (st2.store.getD j q0).duplicate = true →
        innerStep sim thr i j st2 = st2)
    ∧ (∀ (st2 : St) (i : Nat), (st2.store.getD i q0).duplicate = true →
        (outerStep sim thr st2 i).store = st2.store) := by
  refine ⟨?_, ?_, ?_⟩
  · intro j hdup
    have hinv := process_inv sim thr st h
    cases hj : (process sim thr st).store[j]? with
    | none =>
      rw [getD_get?, hj] at hdup
      simp [q0] at hdup
    | some q =>
      rw [getD_get?, hj] at hdup
      simp at hdup
      obtain ⟨href, huniq, i, qi, him, hgi, hiref, hsim, hof, hmin⟩ :=
        hinv.dupSpec j q hj hdup
      have hp : ((((process sim thr st).store.getD i q0).reference &&
          decide (thr < sim ((process sim thr st).store.getD i q0).question
            ((process sim thr st).store.getD j q0).question)) = true) := by
        rw [getD_get?, getD_get?, hgi, hj]
        simp [hiref, hsim]
      have hm : ∀ i2 : Nat, i2 < i →
          ((((process sim thr st).store.getD i2 q0).reference &&
            decide (thr < sim ((process sim thr st).store.getD i2 q0).question
              ((process sim thr st).store.getD j q0).question)) = false) := by
        intro i2 hi2
        cases hgi2 : (process sim thr st).store[i2]? with
        | none =>
          rw [getD_get?, hgi2]
          simp [q0]
        | some qi2 =>
          rw [getD_get?, getD_get?, hgi2, hj]
          cases hr : qi2.reference
          · simp [hr]
          · simp [hr, not_lt.mpr (hmin i2 qi2 hi2 hgi2 hr)]
      rw [earliestRefMatch, find?_range_some _ i j him hp hm]
      refine ⟨?_, ?_⟩
      · simp [getD_get?, hgi, hj, hof]
      · rw [getD_get?, hj]
        simpa using href
  · intro st2 i j hdup
    cases hj : st2.store[j]? with
    | none =>
      rw [getD_get?, hj] at hdup
      simp [q0] at hdup
    | some q2 =>
      rw [getD_get?, hj] at hdup
      simp at hdup
      cases hi : st2.store[i]? with
      | none => simp [innerStep, hi]
      | some q => simp [innerStep, hi, hj, hdup]
  · intro st2 i hdup
    cases hi : st2.store[i]? with
    | none => simp [outerStep, hi]
    | some q =>
      rw [getD_get?, hi] at hdup
      simp at hdup
      by_cases hf : q.foreign = true
      · simp [outerStep, hi, hf]
      · have hf2 : q.foreign = false := by simpa using hf
        have hrd : q.reference = true ∨ q.duplicate = true := Or.inr hdup
        simp [outerStep, hi, hf2, hrd]

/-- Witness for C3 at a concrete run with one duplicate. -/
theorem claim_C3_witness :
    cleanStore demoStore2.store = true
    ∧ (earliestRefMatch simHigh half (process simHigh half demoStore2).store 1).map
        (fun i => ((process simHigh half demoStore2).store.getD i q0).lid) =
      some (((process simHigh half demoStore2).store.getD 1 q0).duplicate_of)
    ∧ ((process simHigh half demoStore2).store.getD 1 q0).reference = false :=
  ⟨by decide, ((claim_C3 simHigh half demoStore2 (by decide)).1 1 (by decide)).1,
    ((claim_C3 simHigh half demoStore2 (by decide)).1 1 (by decide)).2⟩
